import Mathlib

/-!
Verification of the ICU multiclass-classifier preprocessing pipeline.

This file gives a shallow embedding, in Lean, of the correctness-critical
parts of the repository:

* the bounded, chunked chart-event loaders
  (`src/mimic_pipeline/utils/charts.py` `load_charts`,
   `src/eicu_pipeline/utils/charts.py` `load_vital_periodic`),
* the per-(stay, variable) summary-statistic aggregation
  (`src/extra/charts.py` `create_chart_features`),
* the diagnosis-assignment pipelines
  (`src/mimic_pipeline/utils/diagnosis.py` and
   `src/eicu_pipeline/utils/diagnosis.py` `add_diagnosis`,
   `_standardize_icd`, `icd_9to10`),
* the ICD-10 → CCSR category mapping
  (`src/extra/mappings.py` `map_icd_to_css`, `_read_css_mapping`).

DataFrames are modelled as lists of structure rows; numeric values and
times as rationals; nullable columns as `Option`.  Pandas row filters
become `List.filter`, left/inner merges become `List.flatMap` over the
matching rows of the other table, `dropna` becomes `filterMap`, and
`drop_duplicates` becomes an explicit keep-first deduplication.
-/

/-! ## Generic list and string helpers -/

/-- Keep-first deduplication, as pandas `drop_duplicates` does: a row is
kept iff it has not been seen earlier in the list. -/
def dropDupAux {α : Type} [DecidableEq α] : List α → List α → List α
  | _, [] => []
  | seen, a :: l =>
    if a ∈ seen then dropDupAux seen l else a :: dropDupAux (a :: seen) l

/-- pandas `DataFrame.drop_duplicates` (keep the first occurrence). -/
def drop_duplicates {α : Type} [DecidableEq α] (l : List α) : List α :=
  dropDupAux [] l

theorem mem_dropDupAux {α : Type} [DecidableEq α] (a : α) :
    ∀ (seen l : List α), a ∈ dropDupAux seen l ↔ a ∈ l ∧ a ∉ seen := by
  intro seen l
  induction l generalizing seen with
  | nil => simp [dropDupAux]
  | cons b l ih =>
    by_cases hb : b ∈ seen
    · simp only [dropDupAux, if_pos hb, ih, List.mem_cons]
      by_cases hab : a = b
      · subst hab; tauto
      · tauto
    · simp only [dropDupAux, if_neg hb, List.mem_cons, ih]
      by_cases hab : a = b
      · subst hab; tauto
      · tauto

theorem mem_drop_duplicates {α : Type} [DecidableEq α] (a : α) (l : List α) :
    a ∈ drop_duplicates l ↔ a ∈ l := by
  simp [drop_duplicates, mem_dropDupAux]

theorem nodup_dropDupAux {α : Type} [DecidableEq α] :
    ∀ (seen l : List α), (dropDupAux seen l).Nodup := by
  intro seen l
  induction l generalizing seen with
  | nil => simp [dropDupAux]
  | cons b l ih =>
    by_cases hb : b ∈ seen
    · simpa [dropDupAux, if_pos hb] using ih seen
    · simp only [dropDupAux, if_neg hb, List.nodup_cons]
      refine ⟨fun hc => ?_, ih (b :: seen)⟩
      exact ((mem_dropDupAux b (b :: seen) l).mp hc).2 (List.mem_cons_self b seen)

theorem nodup_drop_duplicates {α : Type} [DecidableEq α] (l : List α) :
    (drop_duplicates l).Nodup := nodup_dropDupAux [] l

/-- Models `Series.idxmin`: the first element of the list attaining the minimal
value of `f` (ties are broken towards the earlier row). -/
def firstMinBy {α : Type} (f : α → ℕ) : List α → Option α
  | [] => none
  | a :: l =>
    match firstMinBy f l with
    | none => some a
    | some b => if f a ≤ f b then some a else some b

/-- Models `Series.idxmax` over rational values: the first element attaining the
maximal value of `f`. -/
def firstMaxBy {α : Type} (f : α → ℚ) : List α → Option α
  | [] => none
  | a :: l =>
    match firstMaxBy f l with
    | none => some a
    | some b => if f b > f a then some b else some a

theorem firstMinBy_mem {α : Type} (f : α → ℕ) :
    ∀ (l : List α) (a : α), firstMinBy f l = some a → a ∈ l := by
  intro l
  induction l with
  | nil => intro a h; simp [firstMinBy] at h
  | cons b l ih =>
    intro a h
    cases hl : firstMinBy f l with
    | none =>
      simp only [firstMinBy, hl] at h
      exact List.mem_cons.mpr (Or.inl (Option.some.inj h).symm)
    | some c =>
      simp only [firstMinBy, hl] at h
      by_cases hc : f b ≤ f c
      · rw [if_pos hc] at h
        exact List.mem_cons.mpr (Or.inl (Option.some.inj h).symm)
      · rw [if_neg hc] at h
        exact List.mem_cons.mpr (Or.inr (ih a (hl.trans (congrArg some (Option.some.inj h)))))

theorem firstMinBy_eq_none {α : Type} (f : α → ℕ) (l : List α) :
    firstMinBy f l = none ↔ l = [] := by
  cases l with
  | nil => simp [firstMinBy]
  | cons a l =>
    simp only [firstMinBy]
    cases firstMinBy f l with
    | none => simp
    | some b =>
      by_cases h : f a ≤ f b <;> simp [h]

theorem firstMaxBy_mem {α : Type} (f : α → ℚ) :
    ∀ (l : List α) (a : α), firstMaxBy f l = some a → a ∈ l := by
  intro l
  induction l with
  | nil => intro a h; simp [firstMaxBy] at h
  | cons b l ih =>
    intro a h
    cases hl : firstMaxBy f l with
    | none =>
      simp only [firstMaxBy, hl] at h
      exact List.mem_cons.mpr (Or.inl (Option.some.inj h).symm)
    | some c =>
      simp only [firstMaxBy, hl] at h
      by_cases hc : f c > f b
      · rw [if_pos hc] at h
        exact List.mem_cons.mpr (Or.inr (ih a (hl.trans (congrArg some (Option.some.inj h)))))
      · rw [if_neg hc] at h
        exact List.mem_cons.mpr (Or.inl (Option.some.inj h).symm)

/-- python `s[:n]` on a string. -/
def strTake (n : ℕ) (s : String) : String := ⟨s.data.take n⟩

/-- Strip leading and trailing characters satisfying `p` (python
`str.strip`). -/
def stripChars (p : Char → Bool) (l : List Char) : List Char :=
  ((l.dropWhile p).reverse.dropWhile p).reverse

/-- python `str.strip()` (whitespace). -/
def strTrim (s : String) : String := ⟨stripChars Char.isWhitespace s.data⟩

/-- python `s.split(",")[0].strip()`, as applied to eICU `icd9code`
fields: everything before the first comma, whitespace-trimmed. -/
def firstToken (s : String) : String :=
  strTrim ⟨s.data.takeWhile (fun c => ¬ (c = ','))⟩

/-- python `str.strip("'")`: strip surrounding apostrophes (used by
`_read_css_mapping` on every column of the CCSR table). -/
def stripQuotes (s : String) : String :=
  ⟨stripChars (fun c => c = Char.ofNat 39) s.data⟩

/-! ## BoundedStreamFilter — MIMIC `load_charts`

`load_charts` reads `chartevents` in chunks of fixed size; per chunk it
drops rows with a null `valuenum`, keeps only allowed `itemid`s (when an
allow-list is given), inner-merges with `icustays_df[["stay_id",
"intime"]]`, computes `event_time_from_admit = charttime - intime`,
keeps rows with `event_time_from_admit < Timedelta(hours=cutoff_h)`
(strict), drops duplicates, and concatenates the chunks.  Times are
modelled in hours as rationals. -/

structure ChartRow where
  stay_id : ℕ
  charttime : ℚ
  itemid : ℕ
  valuenum : Option ℚ
  valueuom : String
  deriving DecidableEq

structure IcuStay where
  stay_id : ℕ
  intime : ℚ
  deriving DecidableEq

structure ChartEvent where
  stay_id : ℕ
  itemid : ℕ
  valuenum : ℚ
  valueuom : String
  event_time_from_admit : ℚ
  deriving DecidableEq

/-- A value `valid_items is None` disables the allow-list filter. -/
def itemAllowed (valid_items : Option (List ℕ)) (itemid : ℕ) : Bool :=
  match valid_items with
  | none => true
  | some items => items.contains itemid

/-- The row produced by the inner merge of a chart row with a matching
icustays row (offset column added, `charttime`/`intime` deleted). -/
def mkChartEvent (r : ChartRow) (s : IcuStay) : ChartEvent :=
  { stay_id := r.stay_id, itemid := r.itemid,
    valuenum := r.valuenum.getD 0, valueuom := r.valueuom,
    event_time_from_admit := r.charttime - s.intime }

/-- Per-chunk body of the `load_charts` loop. -/
def load_charts_chunk (icustays : List IcuStay) (valid_items : Option (List ℕ))
    (cutoff_h : ℚ) (chunk : List ChartRow) : List ChartEvent :=
  let nonnull := chunk.filter (fun r => r.valuenum.isSome)
  let allowed := nonnull.filter (fun r => itemAllowed valid_items r.itemid)
  let merged := allowed.flatMap (fun r =>
    (icustays.filter (fun s => s.stay_id == r.stay_id)).map (mkChartEvent r))
  let bounded := merged.filter (fun e => decide (e.event_time_from_admit < cutoff_h))
  drop_duplicates bounded

/-- Models `load_charts`: process every chunk and `pd.concat` the results. -/
def load_charts (icustays : List IcuStay) (valid_items : Option (List ℕ))
    (cutoff_h : ℚ) (chunks : List (List ChartRow)) : List ChartEvent :=
  (chunks.map (load_charts_chunk icustays valid_items cutoff_h)).flatten

/-- The per-row condition under which a source chart row, merged with a
cohort row, contributes an output event. -/
def chartKept (icustays : List IcuStay) (valid_items : Option (List ℕ))
    (cutoff_h : ℚ) (r : ChartRow) (e : ChartEvent) : Prop :=
  ∃ s ∈ icustays, s.stay_id = r.stay_id ∧ r.valuenum.isSome = true ∧
    itemAllowed valid_items r.itemid = true ∧ mkChartEvent r s = e ∧
    e.event_time_from_admit < cutoff_h

theorem mem_load_charts_chunk (icustays : List IcuStay)
    (valid_items : Option (List ℕ)) (cutoff_h : ℚ) (chunk : List ChartRow)
    (e : ChartEvent) :
    e ∈ load_charts_chunk icustays valid_items cutoff_h chunk ↔
      ∃ r ∈ chunk, chartKept icustays valid_items cutoff_h r e := by
  simp only [load_charts_chunk, chartKept, mem_drop_duplicates, List.mem_filter,
    List.mem_flatMap, List.mem_map, decide_eq_true_eq, beq_iff_eq]
  constructor
  · rintro ⟨⟨r, ⟨⟨hr, hnull⟩, hitem⟩, s, ⟨hs, hsid⟩, hmk⟩, hcut⟩
    exact ⟨r, hr, s, hs, hsid, hnull, hitem, hmk, hcut⟩
  · rintro ⟨r, hr, s, hs, hsid, hnull, hitem, hmk, hcut⟩
    exact ⟨⟨r, ⟨⟨hr, hnull⟩, hitem⟩, s, ⟨hs, hsid⟩, hmk⟩, hcut⟩

theorem mem_load_charts (icustays : List IcuStay)
    (valid_items : Option (List ℕ)) (cutoff_h : ℚ) (chunks : List (List ChartRow))
    (e : ChartEvent) :
    e ∈ load_charts icustays valid_items cutoff_h chunks ↔
      ∃ r ∈ chunks.flatten, chartKept icustays valid_items cutoff_h r e := by
  simp only [load_charts, List.mem_flatten, List.mem_map]
  constructor
  · rintro ⟨_, ⟨c, hc, rfl⟩, he⟩
    obtain ⟨r, hr, hk⟩ := (mem_load_charts_chunk _ _ _ _ _).mp he
    exact ⟨r, ⟨c, hc, hr⟩, hk⟩
  · rintro ⟨r, ⟨c, hc, hrc⟩, hk⟩
    exact ⟨_, ⟨c, hc, rfl⟩, (mem_load_charts_chunk _ _ _ _ _).mpr ⟨r, hrc, hk⟩⟩

/-! ## BoundedStreamFilter — eICU `load_vital_periodic`

`load_vital_periodic` reads `vitalPeriodic` in chunks; per chunk it
keeps rows whose `patientunitstayid` is in the cohort and whose
`observationoffset` (minutes) satisfies `observationoffset <= cutoff_h *
60` (inclusive), and concatenates.  A row carries one observation per
vital column, possibly null; `add_charts_features` later melts the kept
rows to long format and drops null values, so a single measurement
participates in aggregation iff its row is kept and its value is
non-null.  (The Fahrenheit helper column added per chunk affects no
row-level filtering and is not melted, so it is omitted.) -/

structure VitalRow where
  patientunitstayid : ℕ
  observationoffset : ℚ
  vitals : List (String × Option ℚ)
  deriving DecidableEq

structure VitalEvent where
  patientunitstayid : ℕ
  vital : String
  observationoffset : ℚ
  value : ℚ
  deriving DecidableEq

def load_vital_periodic (cohort_ids : List ℕ) (cutoff_h : ℚ)
    (chunks : List (List VitalRow)) : List VitalRow :=
  (chunks.map (fun chunk =>
    (chunk.filter (fun r => cohort_ids.contains r.patientunitstayid)).filter
      (fun r => decide (r.observationoffset ≤ cutoff_h * 60)))).flatten

/-- The melt to long format performed by `add_charts_features` on the
vital-periodic table (null values dropped). -/
def meltVitals (rows : List VitalRow) : List VitalEvent :=
  rows.flatMap (fun r => r.vitals.filterMap (fun nv =>
    nv.2.map (fun v =>
      { patientunitstayid := r.patientunitstayid, vital := nv.1,
        observationoffset := r.observationoffset, value := v })))

theorem mem_load_vital_periodic (cohort_ids : List ℕ) (cutoff_h : ℚ)
    (chunks : List (List VitalRow)) (r : VitalRow) :
    r ∈ load_vital_periodic cohort_ids cutoff_h chunks ↔
      r ∈ chunks.flatten ∧ cohort_ids.contains r.patientunitstayid = true ∧
        r.observationoffset ≤ cutoff_h * 60 := by
  simp only [load_vital_periodic, List.mem_flatten, List.mem_map]
  constructor
  · rintro ⟨_, ⟨c, hc, rfl⟩, hmem⟩
    rw [List.mem_filter, List.mem_filter] at hmem
    obtain ⟨⟨hr, hid⟩, hcut⟩ := hmem
    exact ⟨⟨c, hc, hr⟩, hid, by simpa using hcut⟩
  · rintro ⟨⟨c, hc, hrc⟩, hid, hcut⟩
    refine ⟨_, ⟨c, hc, rfl⟩, ?_⟩
    rw [List.mem_filter, List.mem_filter]
    exact ⟨⟨hrc, hid⟩, by simpa using hcut⟩

theorem mem_meltVitals (rows : List VitalRow) (ev : VitalEvent) :
    ev ∈ meltVitals rows ↔
      ∃ r ∈ rows, ∃ nv ∈ r.vitals, nv.2 = some ev.value ∧
        ev.patientunitstayid = r.patientunitstayid ∧ ev.vital = nv.1 ∧
        ev.observationoffset = r.observationoffset := by
  simp only [meltVitals, List.mem_flatMap, List.mem_filterMap, Option.map_eq_some']
  constructor
  · rintro ⟨r, hr, nv, hnv, v, hv, rfl⟩
    exact ⟨r, hr, nv, hnv, hv, rfl, rfl, rfl⟩
  · rintro ⟨r, hr, nv, hnv, hv, h1, h2, h3⟩
    refine ⟨r, hr, nv, hnv, ev.value, hv, ?_⟩
    rw [← h1, ← h2, ← h3]

/-! ## VariableAggregator — `extra/charts.py` `create_chart_features`

`create_chart_features` groups the (pre-sorted) long-format chart table
by (stay, variable) and aggregates the value column with the pandas
aggregations `last`, `max`, `min`, `mean`, `median`, then pivots to one
column per statistic × variable.  We model the contents of one pivoted
cell: the five statistics of the value sequence of one (stay, variable)
group, in table order.  Values entering the aggregation are non-null
(the loaders drop null values), so pandas' NaN-skipping aggregations
coincide with plain list aggregations. -/

structure ChartSortedRow where
  stay : ℕ
  varId : String
  t : ℚ
  val : ℚ
  deriving DecidableEq

/-- pandas `last` on a group: the final row's value. -/
def listLast (l : List ℚ) : Option ℚ := l.getLast?

def listMax : List ℚ → Option ℚ
  | [] => none
  | a :: l =>
    match listMax l with
    | none => some a
    | some b => some (max a b)

def listMin : List ℚ → Option ℚ
  | [] => none
  | a :: l =>
    match listMin l with
    | none => some a
    | some b => some (min a b)

/-- pandas `mean`: arithmetic mean. -/
def listMean (l : List ℚ) : Option ℚ :=
  if l.isEmpty then none else some (l.sum / l.length)

def insertSorted (a : ℚ) : List ℚ → List ℚ
  | [] => [a]
  | b :: l => if a ≤ b then a :: b :: l else b :: insertSorted a l

def sortAsc : List ℚ → List ℚ
  | [] => []
  | a :: l => insertSorted a (sortAsc l)

/-- pandas `median`: sort the values; odd count takes the middle value,
even count averages the two middle values. -/
def listMedian (l : List ℚ) : Option ℚ :=
  if (sortAsc l).length = 0 then none
  else if (sortAsc l).length % 2 = 1 then
    (sortAsc l).get? ((sortAsc l).length / 2)
  else
    match (sortAsc l).get? ((sortAsc l).length / 2 - 1),
        (sortAsc l).get? ((sortAsc l).length / 2) with
    | some a, some b => some ((a + b) / 2)
    | _, _ => none

/-- The rows of one (stay, variable) group, in table order. -/
def groupRows (rows : List ChartSortedRow) (s : ℕ) (v : String) :
    List ChartSortedRow :=
  rows.filter (fun r => decide (r.stay = s) && decide (r.varId = v))

/-- The value sequence of one (stay, variable) group. -/
def groupValues (rows : List ChartSortedRow) (s : ℕ) (v : String) : List ℚ :=
  (groupRows rows s v).map (fun r => r.val)

structure FeatureStats where
  last : Option ℚ
  max : Option ℚ
  min : Option ℚ
  mean : Option ℚ
  median : Option ℚ
  deriving DecidableEq

/-- The five aggregated statistics that `create_chart_features` puts in
the wide row of stay `s` for variable `v`. -/
def create_chart_features (rows : List ChartSortedRow) (s : ℕ) (v : String) :
    FeatureStats :=
  let vs := groupValues rows s v
  { last := listLast vs, max := listMax vs, min := listMin vs,
    mean := listMean vs, median := listMedian vs }

theorem listMax_isSome {l : List ℚ} (h : l ≠ []) : ∃ b, listMax l = some b := by
  cases l with
  | nil => exact absurd rfl h
  | cons a l =>
    cases hl : listMax l with
    | none => exact ⟨a, by simp [listMax, hl]⟩
    | some b => exact ⟨max a b, by simp [listMax, hl]⟩

theorem listMin_isSome {l : List ℚ} (h : l ≠ []) : ∃ b, listMin l = some b := by
  cases l with
  | nil => exact absurd rfl h
  | cons a l =>
    cases hl : listMin l with
    | none => exact ⟨a, by simp [listMin, hl]⟩
    | some b => exact ⟨min a b, by simp [listMin, hl]⟩

theorem le_listMax : ∀ (l : List ℚ) (b : ℚ), listMax l = some b →
    ∀ x ∈ l, x ≤ b := by
  intro l
  induction l with
  | nil => intro b h; simp [listMax] at h
  | cons a l ih =>
    intro b h x hx
    cases hl : listMax l with
    | none =>
      have : l = [] := by
        cases l with
        | nil => rfl
        | cons c l' =>
          exfalso
          obtain ⟨d, hd⟩ := listMax_isSome (l := c :: l') (by simp)
          rw [hd] at hl; exact Option.noConfusion hl
      subst this
      simp only [listMax, hl] at h
      rcases List.mem_singleton.mp hx with rfl
      exact le_of_eq (Option.some.inj h)
    | some c =>
      simp only [listMax, hl] at h
      have hb : b = max a c := (Option.some.inj h).symm
      rcases List.mem_cons.mp hx with rfl | hx
      · exact hb ▸ le_max_left x c
      · exact le_trans (ih c hl x hx) (hb ▸ le_max_right a c)

theorem listMin_le : ∀ (l : List ℚ) (b : ℚ), listMin l = some b →
    ∀ x ∈ l, b ≤ x := by
  intro l
  induction l with
  | nil => intro b h; simp [listMin] at h
  | cons a l ih =>
    intro b h x hx
    cases hl : listMin l with
    | none =>
      have : l = [] := by
        cases l with
        | nil => rfl
        | cons c l' =>
          exfalso
          obtain ⟨d, hd⟩ := listMin_isSome (l := c :: l') (by simp)
          rw [hd] at hl; exact Option.noConfusion hl
      subst this
      simp only [listMin, hl] at h
      rcases List.mem_singleton.mp hx with rfl
      exact le_of_eq (Option.some.inj h).symm
    | some c =>
      simp only [listMin, hl] at h
      have hb : b = min a c := (Option.some.inj h).symm
      rcases List.mem_cons.mp hx with rfl | hx
      · exact hb ▸ min_le_left x c
      · exact le_trans (hb ▸ min_le_right a c) (ih c hl x hx)

theorem mem_insertSorted (a x : ℚ) :
    ∀ (l : List ℚ), x ∈ insertSorted a l ↔ x = a ∨ x ∈ l := by
  intro l
  induction l with
  | nil => simp [insertSorted]
  | cons b l ih =>
    by_cases h : a ≤ b
    · simp only [insertSorted, if_pos h, List.mem_cons]
    · simp only [insertSorted, if_neg h, List.mem_cons, ih]
      tauto

theorem mem_sortAsc (x : ℚ) : ∀ (l : List ℚ), x ∈ sortAsc l ↔ x ∈ l := by
  intro l
  induction l with
  | nil => simp [sortAsc]
  | cons a l ih =>
    simp only [sortAsc, mem_insertSorted, List.mem_cons, ih]

theorem sum_le_length_mul_max : ∀ (l : List ℚ) (b : ℚ), listMax l = some b →
    l.sum ≤ l.length * b := by
  intro l
  induction l with
  | nil => intro b h; simp [listMax] at h
  | cons a l ih =>
    intro b h
    cases hl : listMax l with
    | none =>
      have hnil : l = [] := by
        cases l with
        | nil => rfl
        | cons c l' =>
          exfalso
          obtain ⟨d, hd⟩ := listMax_isSome (l := c :: l') (by simp)
          rw [hd] at hl; exact Option.noConfusion hl
      subst hnil
      simp only [listMax, hl] at h
      rw [← Option.some.inj h]
      simp
    | some c =>
      simp only [listMax, hl] at h
      rw [← Option.some.inj h]
      have ihc := ih c hl
      have hlen : (0:ℚ) ≤ l.length := by positivity
      have h1 : (l.length : ℚ) * c ≤ l.length * max a c :=
        mul_le_mul_of_nonneg_left (le_max_right a c) hlen
      have h2 : a ≤ max a c := le_max_left a c
      simp only [List.sum_cons, List.length_cons]
      push_cast
      linarith

theorem length_mul_min_le_sum : ∀ (l : List ℚ) (b : ℚ), listMin l = some b →
    l.length * b ≤ l.sum := by
  intro l
  induction l with
  | nil => intro b h; simp [listMin] at h
  | cons a l ih =>
    intro b h
    cases hl : listMin l with
    | none =>
      have hnil : l = [] := by
        cases l with
        | nil => rfl
        | cons c l' =>
          exfalso
          obtain ⟨d, hd⟩ := listMin_isSome (l := c :: l') (by simp)
          rw [hd] at hl; exact Option.noConfusion hl
      subst hnil
      simp only [listMin, hl] at h
      rw [← Option.some.inj h]
      simp
    | some c =>
      simp only [listMin, hl] at h
      rw [← Option.some.inj h]
      have ihc := ih c hl
      have hlen : (0:ℚ) ≤ l.length := by positivity
      have h1 : (l.length : ℚ) * min a c ≤ l.length * c :=
        mul_le_mul_of_nonneg_left (min_le_right a c) hlen
      have h2 : min a c ≤ a := min_le_left a c
      simp only [List.sum_cons, List.length_cons]
      push_cast
      linarith

theorem listMean_bounds {l : List ℚ} {mn mx me : ℚ}
    (hmn : listMin l = some mn) (hmx : listMax l = some mx)
    (hme : listMean l = some me) : mn ≤ me ∧ me ≤ mx := by
  have hne : ¬ l.isEmpty := by
    intro hc
    rw [List.isEmpty_iff.mp hc] at hmn
    simp [listMin] at hmn
  rw [listMean, if_neg hne] at hme
  have hlen : (0:ℚ) < l.length := by
    have : l ≠ [] := fun hc => hne (List.isEmpty_iff.mpr hc)
    have : 0 < l.length := List.length_pos.mpr this
    exact_mod_cast this
  rw [← Option.some.inj hme]
  constructor
  · rw [le_div_iff₀ hlen]
    calc mn * l.length = l.length * mn := mul_comm _ _
    _ ≤ l.sum := length_mul_min_le_sum l mn hmn
  · rw [div_le_iff₀ hlen]
    calc l.sum ≤ l.length * mx := sum_le_length_mul_max l mx hmx
    _ = mx * l.length := mul_comm _ _

theorem listMedian_cases {l : List ℚ} {me : ℚ} (h : listMedian l = some me) :
    me ∈ l ∨ ∃ a ∈ l, ∃ b ∈ l, me = (a + b) / 2 := by
  rw [listMedian] at h
  by_cases h0 : (sortAsc l).length = 0
  · rw [if_pos h0] at h; exact Option.noConfusion h
  · rw [if_neg h0] at h
    by_cases hodd : (sortAsc l).length % 2 = 1
    · rw [if_pos hodd] at h
      exact Or.inl ((mem_sortAsc me l).mp (List.get?_mem h))
    · rw [if_neg hodd] at h
      cases ha : (sortAsc l).get? ((sortAsc l).length / 2 - 1) with
      | none => rw [ha] at h; exact Option.noConfusion h
      | some a =>
        cases hb : (sortAsc l).get? ((sortAsc l).length / 2) with
        | none => rw [ha, hb] at h; exact Option.noConfusion h
        | some b =>
          rw [ha, hb] at h
          refine Or.inr ⟨a, (mem_sortAsc a l).mp (List.get?_mem ha),
            b, (mem_sortAsc b l).mp (List.get?_mem hb), ?_⟩
          exact (Option.some.inj h).symm

theorem listMedian_bounds {l : List ℚ} {mn mx me : ℚ}
    (hmn : listMin l = some mn) (hmx : listMax l = some mx)
    (hme : listMedian l = some me) : mn ≤ me ∧ me ≤ mx := by
  rcases listMedian_cases hme with hmem | ⟨a, ha, b, hb, rfl⟩
  · exact ⟨listMin_le l mn hmn me hmem, le_listMax l mx hmx me hmem⟩
  · have h1 := listMin_le l mn hmn a ha
    have h2 := listMin_le l mn hmn b hb
    have h3 := le_listMax l mx hmx a ha
    have h4 := le_listMax l mx hmx b hb
    constructor <;> [linarith; linarith]

/-- In a list whose `f`-values are ascending along the list, the last
element attains the maximum of `f`. -/
theorem getLast_max_of_chain {α : Type} (f : α → ℚ) :
    ∀ (l : List α), List.Chain' (fun p q => f p ≤ f q) l →
      ∀ x, l.getLast? = some x → x ∈ l ∧ ∀ r ∈ l, f r ≤ f x := by
  intro l
  induction l with
  | nil => intro _ x hx; exact Option.noConfusion hx
  | cons a l ih =>
    intro hch x hx
    cases l with
    | nil =>
      simp only [List.getLast?_singleton] at hx
      rcases Option.some.inj hx with rfl
      exact ⟨List.mem_singleton_self _, fun r hr => by
        rcases List.mem_singleton.mp hr with rfl; exact le_refl _⟩
    | cons b l' =>
      rw [List.getLast?_cons_cons] at hx
      rw [List.chain'_cons] at hch
      obtain ⟨hab, hch'⟩ := hch
      obtain ⟨hxmem, hmax⟩ := ih hch' x hx
      refine ⟨List.mem_cons_of_mem a hxmem, fun r hr => ?_⟩
      rcases List.mem_cons.mp hr with rfl | hr
      · exact le_trans hab (hmax b (List.mem_cons_self b l'))
      · exact hmax r hr

/-! ## CodeHierarchyResolver — `icd_9to10` and the CCSR mapping

`icd_9to10` (identical in both adapters) truncates the legacy code to
its first 3 characters, selects the mapping rows whose
`diagnosis_code` equals that truncation, and takes `.iloc[0]`; an
`IndexError` (no match) yields NaN, modelled as `none`. -/

structure IcdMapRow where
  diagnosis_code : String
  icd10cm : String
  deriving DecidableEq

def icd_9to10 (mapping : List IcdMapRow) (icd : String) : Option String :=
  ((mapping.filter (fun r => decide (r.diagnosis_code = strTake 3 icd))).map
    (fun r => r.icd10cm)).head?

/-- A row of the CCSR table after `_read_css_mapping`'s normalization. -/
structure CssMapRow where
  icd10 : String
  cat1 : String
  desc1 : String
  deriving DecidableEq

/-- A raw row of the CCSR csv (values still carrying their surrounding
apostrophes). -/
structure RawCssRow where
  icd10 : String
  cat1 : String
  desc1 : String
  deriving DecidableEq

/-- Models `_read_css_mapping`: strip surrounding apostrophes from every value
(column headers are normalized separately and are fixed here). -/
def read_css_mapping (raw : List RawCssRow) : List CssMapRow :=
  raw.map (fun r =>
    { icd10 := stripQuotes r.icd10, cat1 := stripQuotes r.cat1,
      desc1 := stripQuotes r.desc1 })

/-- Models `Series.replace("", np.nan)`: exactly-empty strings become NaN;
every other string (including whitespace-only ones) is kept. -/
def blankToNone (s : String) : Option String :=
  if s = "" then none else some s

/-- The CCSR rows matching one `icd10_code` key. -/
def css_matches (cssMap : List CssMapRow) (code : String) : List CssMapRow :=
  cssMap.filter (fun m => decide (m.icd10 = code))

/-- The contribution of one left row (keyed by its `icd10_code`) to the
left merge with the CCSR table in `map_icd_to_css`, followed by the
`replace("", np.nan)` on the two category columns: all matching mapping
rows, or a single all-NaN row when there is no match. -/
def merge_css (cssMap : List CssMapRow) (code : String) :
    List (Option String × Option String) :=
  match css_matches cssMap code with
  | [] => [(none, none)]
  | ms => ms.map (fun m => (blankToNone m.cat1, blankToNone m.desc1))

structure StayIcd where
  stay_id : ℕ
  icd10_code : String
  deriving DecidableEq

structure StayCss where
  stay_id : ℕ
  cat1 : Option String
  desc1 : Option String
  deriving DecidableEq

/-- Models `map_icd_to_css`: left-merge the stays (carrying `icd10_code`) with
the CCSR table, blank categories to NaN, drop the key columns. -/
def map_icd_to_css (cssMap : List CssMapRow) (rows : List StayIcd) :
    List StayCss :=
  rows.flatMap (fun r => (merge_css cssMap r.icd10_code).map (fun cd =>
    { stay_id := r.stay_id, cat1 := cd.1, desc1 := cd.2 }))

/-! ## DiagnosisAssigner — MIMIC `add_diagnosis`

The MIMIC adapter reads `diagnoses_icd.csv.gz` with
`usecols=["hadm_id", "icd_code", "seq_num", "icd_version"]` (any other
column of the raw file — in particular any time-like column — is
discarded; the function has no cutoff parameter).  It resolves ICD-9
codes to ICD-10 (`_standardize_icd`), drops rows with no resolution,
left-merges onto the stays by `hadm_id`, drops stays with no diagnosis,
keeps per stay the row with the minimum `seq_num` (`idxmin`: first
occurrence on ties), maps ICD-10 to CCSR, and finally — only when the
caller passes a non-empty `diagnosis_codes` list (python truthiness) —
keeps rows whose category is in the list. -/

structure MimicDiagRow where
  hadm_id : ℕ
  icd_code : String
  seq_num : ℕ
  icd_version : ℕ
  deriving DecidableEq

/-- A raw row of `diagnoses_icd.csv.gz`: the four consumed columns plus
a time-like column that `usecols` discards. -/
structure MimicRawDiagRow where
  hadm_id : ℕ
  icd_code : String
  seq_num : ℕ
  icd_version : ℕ
  row_time : ℚ
  deriving DecidableEq

/-- The `usecols` projection of `pd.read_csv`. -/
def mimic_usecols (r : MimicRawDiagRow) : MimicDiagRow :=
  { hadm_id := r.hadm_id, icd_code := r.icd_code, seq_num := r.seq_num,
    icd_version := r.icd_version }

def mimic_read_diagnoses (raw : List MimicRawDiagRow) : List MimicDiagRow :=
  raw.map mimic_usecols

/-- MIMIC `_standardize_icd`: the new `icd10_code` column.  The python
code first copies `icd_code` into the column, then groups the rows with
`icd_version == 9` by `icd_code` and overwrites each group with
`icd_9to10` of its code; since the override depends only on the code,
the column's value at each row is as below. -/
def mimic_standardize_icd (mapping : List IcdMapRow) (df : List MimicDiagRow) :
    List (MimicDiagRow × Option String) :=
  df.map (fun r =>
    (r, if r.icd_version = 9 then icd_9to10 mapping r.icd_code
        else some r.icd_code))

/-- Models `dropna(subset=["icd10_code"])` after standardization. -/
def mimic_resolved (mapping : List IcdMapRow) (diag : List MimicDiagRow) :
    List (MimicDiagRow × String) :=
  (mimic_standardize_icd mapping diag).filterMap
    (fun rc => rc.2.map (fun c => (rc.1, c)))

structure MimicStay where
  hadm_id : ℕ
  stay_id : ℕ
  deriving DecidableEq

structure MimicStayDiag where
  hadm_id : ℕ
  stay_id : ℕ
  cat1 : Option String
  desc1 : Option String
  deriving DecidableEq

/-- Left merge of the stays with the resolved diagnoses on `hadm_id`,
followed by `dropna(subset=["icd10_code"])`: stays with no matching
diagnosis contribute nothing. -/
def mimic_merged (stays : List MimicStay) (resolved : List (MimicDiagRow × String)) :
    List (MimicStay × MimicDiagRow × String) :=
  stays.flatMap (fun s =>
    (resolved.filter (fun rc => rc.1.hadm_id == s.hadm_id)).map (fun rc => (s, rc)))

/-- Models `df.loc[df.groupby(["stay_id"])["seq_num"].idxmin()]`: one row per
stay id occurring in the merge, the first row attaining the minimal
`seq_num` of that stay. -/
def mimic_selected (merged : List (MimicStay × MimicDiagRow × String)) :
    List (MimicStay × MimicDiagRow × String) :=
  (drop_duplicates (merged.map (fun t => t.1.stay_id))).filterMap
    (fun sid => firstMinBy (fun t => t.2.1.seq_num)
      (merged.filter (fun t => t.1.stay_id == sid)))

/-- Models `if diagnosis_codes: df = df[df["CCSR CATEGORY 1"].isin(codes)]` —
python truthiness: `None` and the empty list both skip the filter;
`isin` is false at NaN. -/
def applyAllowList {α : Type} (cat : α → Option String)
    (codes : Option (List String)) (rows : List α) : List α :=
  match codes with
  | none => rows
  | some [] => rows
  | some cs => rows.filter (fun r =>
      match cat r with
      | some c => cs.contains c
      | none => false)

/-- Models `map_icd_to_css` as applied inside the MIMIC `add_diagnosis` (the
stays carry `hadm_id` and `stay_id` through the merge). -/
def mimic_with_css (cssMap : List CssMapRow)
    (selected : List (MimicStay × MimicDiagRow × String)) : List MimicStayDiag :=
  selected.flatMap (fun t =>
    (merge_css cssMap t.2.2).map (fun cd =>
      { hadm_id := t.1.hadm_id, stay_id := t.1.stay_id,
        cat1 := cd.1, desc1 := cd.2 }))

def mimic_add_diagnosis (mapping : List IcdMapRow) (cssMap : List CssMapRow)
    (stays : List MimicStay) (diag : List MimicDiagRow)
    (diagnosis_codes : Option (List String)) : List MimicStayDiag :=
  applyAllowList (fun r => r.cat1) diagnosis_codes
    (mimic_with_css cssMap (mimic_selected (mimic_merged stays (mimic_resolved mapping diag))))

/-! ## DiagnosisAssigner — eICU `add_diagnosis`

The eICU adapter keeps only rows with `diagnosispriority == "Primary"`
and `diagnosisoffset <= cutoff_h * 60`, keeps per stay the row with the
maximum offset (`idxmax`: first occurrence on ties), drops null
`icd9code`, reduces the code to its first comma-separated token
(whitespace-stripped), resolves every code through `icd_9to10`
(no version gate), merges onto the stays, drops stays with no
resolution, maps to CCSR, and applies the same truthiness-guarded
allow-list filter. -/

structure EicuDiagRow where
  patientunitstayid : ℕ
  icd9code : Option String
  diagnosisoffset : ℚ
  diagnosispriority : String
  deriving DecidableEq

structure EicuStay where
  patientunitstayid : ℕ
  deriving DecidableEq

structure EicuStayDiag where
  patientunitstayid : ℕ
  cat1 : Option String
  desc1 : Option String
  deriving DecidableEq

/-- The priority/cutoff row filter of the eICU adapter. -/
def eicu_filter_diag (cutoff_h : ℚ) (diag : List EicuDiagRow) : List EicuDiagRow :=
  diag.filter (fun r =>
    decide (r.diagnosispriority = "Primary") &&
      decide (r.diagnosisoffset ≤ cutoff_h * 60))

/-- Models `diag_df.loc[diag_df.groupby("patientunitstayid")["diagnosisoffset"].idxmax()]`. -/
def eicu_select_last (diag : List EicuDiagRow) : List EicuDiagRow :=
  (drop_duplicates (diag.map (fun r => r.patientunitstayid))).filterMap
    (fun pid => firstMaxBy (fun r => r.diagnosisoffset)
      (diag.filter (fun r => r.patientunitstayid == pid)))

def eicu_add_diagnosis (mapping : List IcdMapRow) (cssMap : List CssMapRow)
    (stays : List EicuStay) (diag : List EicuDiagRow)
    (diagnosis_codes : Option (List String)) (cutoff_h : ℚ) : List EicuStayDiag :=
  let flt := eicu_filter_diag cutoff_h diag
  let sel := eicu_select_last flt
  let coded := sel.filterMap (fun r => r.icd9code.map (fun c => (r, firstToken c)))
  let resolved := coded.filterMap (fun rc =>
    (icd_9to10 mapping rc.2).map (fun c10 => (rc.1, c10)))
  let merged := stays.flatMap (fun s =>
    (resolved.filter (fun rc =>
      rc.1.patientunitstayid == s.patientunitstayid)).map (fun rc => (s, rc.2)))
  let withCss := merged.flatMap (fun sc =>
    (merge_css cssMap sc.2).map (fun cd =>
      { patientunitstayid := sc.1.patientunitstayid,
        cat1 := cd.1, desc1 := cd.2 }))
  applyAllowList (fun r => r.cat1) diagnosis_codes withCss

/-- eICU `_standardize_icd` as a column transformation (every row is
resolved through the mapping; no version gate). -/
def eicu_standardize_icd (mapping : List IcdMapRow) (codes : List String) :
    List (Option String) :=
  codes.map (fun c => icd_9to10 mapping c)

/-! ## Claim theorems -/

/-- Claim C1, counterexample: the claim states that an event whose
time-from-admission offset equals the cutoff exactly participates in
aggregation.  In the MIMIC chart loader the cutoff comparison is strict
(`event_time_from_admit < pd.Timedelta(hours=cutoff_h)`), so the event
below — whose stay is in the cohort, whose value is numeric, and whose
offset `3 - 0 = 3` equals the cutoff `3` exactly — is excluded: the
filtered output is empty. -/
theorem C1_counterexample :
    load_charts [⟨1, 0⟩] none 3 [[⟨1, 3, 220045, some 70, "bpm"⟩]] = [] := by
  norm_num [load_charts, load_charts_chunk, mkChartEvent, itemAllowed,
    drop_duplicates, dropDupAux]

/-- Claim C1, amended: an event participates in downstream aggregation
iff its entity key is in the cohort, its value is non-null, it passes
the optional allow-list, and its offset is within the cutoff — where
the bound is *strict* (`offset < cutoff`) in the MIMIC chart loader and
*inclusive* (`offset ≤ cutoff * 60` minutes) in the eICU vital-periodic
loader. -/
theorem C1_amended :
    (∀ (icustays : List IcuStay) (valid_items : Option (List ℕ)) (cutoff_h : ℚ)
        (chunks : List (List ChartRow)) (e : ChartEvent),
        e ∈ load_charts icustays valid_items cutoff_h chunks ↔
          ∃ r ∈ chunks.flatten, ∃ s ∈ icustays, s.stay_id = r.stay_id ∧
            r.valuenum.isSome = true ∧ itemAllowed valid_items r.itemid = true ∧
            mkChartEvent r s = e ∧ e.event_time_from_admit < cutoff_h) ∧
    (∀ (cohort_ids : List ℕ) (cutoff_h : ℚ) (chunks : List (List VitalRow))
        (ev : VitalEvent),
        ev ∈ meltVitals (load_vital_periodic cohort_ids cutoff_h chunks) ↔
          ∃ r ∈ chunks.flatten, cohort_ids.contains r.patientunitstayid = true ∧
            r.observationoffset ≤ cutoff_h * 60 ∧
            ∃ nv ∈ r.vitals, nv.2 = some ev.value ∧
              ev.patientunitstayid = r.patientunitstayid ∧ ev.vital = nv.1 ∧
              ev.observationoffset = r.observationoffset) := by
  constructor
  · intro icustays valid_items cutoff_h chunks e
    rw [mem_load_charts]
    simp only [chartKept]
  · intro cohort_ids cutoff_h chunks ev
    rw [mem_meltVitals]
    constructor
    · rintro ⟨r, hr, nv, hnv, hv, h1, h2, h3⟩
      obtain ⟨hrf, hid, hcut⟩ := (mem_load_vital_periodic _ _ _ _).mp hr
      exact ⟨r, hrf, hid, hcut, nv, hnv, hv, h1, h2, h3⟩
    · rintro ⟨r, hrf, hid, hcut, nv, hnv, hv, h1, h2, h3⟩
      exact ⟨r, (mem_load_vital_periodic _ _ _ _).mpr ⟨hrf, hid, hcut⟩,
        nv, hnv, hv, h1, h2, h3⟩

/-- Claim C2: the chunked MIMIC chart loader yields the same filtered row
set (order-independent, i.e. same membership) for any two chunkings of
the same source: chunk size is a resource parameter only. -/
theorem C2_chunk_size_invariance :
    ∀ (icustays : List IcuStay) (valid_items : Option (List ℕ)) (cutoff_h : ℚ)
      (chunks1 chunks2 : List (List ChartRow)),
      chunks1.flatten = chunks2.flatten →
      ∀ e : ChartEvent,
        e ∈ load_charts icustays valid_items cutoff_h chunks1 ↔
          e ∈ load_charts icustays valid_items cutoff_h chunks2 := by
  intro icustays valid_items cutoff_h c1 c2 h e
  rw [mem_load_charts, mem_load_charts, h]

/-- Witness for `C2_chunk_size_invariance` at a source split once into
two single-row chunks and once into one two-row chunk. -/
theorem C2_chunk_size_invariance_witness :
    mkChartEvent ⟨1, 1, 7, some 70, ""⟩ ⟨1, 0⟩ ∈
        load_charts [⟨1, 0⟩] none 3
          [[⟨1, 1, 7, some 70, ""⟩], [⟨1, 2, 7, some 80, ""⟩]] ↔
      mkChartEvent ⟨1, 1, 7, some 70, ""⟩ ⟨1, 0⟩ ∈
        load_charts [⟨1, 0⟩] none 3
          [[⟨1, 1, 7, some 70, ""⟩, ⟨1, 2, 7, some 80, ""⟩]] :=
  C2_chunk_size_invariance [⟨1, 0⟩] none 3
    [[⟨1, 1, 7, some 70, ""⟩], [⟨1, 2, 7, some 80, ""⟩]]
    [[⟨1, 1, 7, some 70, ""⟩, ⟨1, 2, 7, some 80, ""⟩]] rfl
    (mkChartEvent ⟨1, 1, 7, some 70, ""⟩ ⟨1, 0⟩)

/-! ### Support lemmas for the diagnosis pipeline -/

theorem firstMinBy_le {α : Type} (f : α → ℕ) :
    ∀ (l : List α) (a : α), firstMinBy f l = some a → ∀ b ∈ l, f a ≤ f b := by
  intro l
  induction l with
  | nil => intro a h; simp [firstMinBy] at h
  | cons c l ih =>
    intro a h b hb
    cases hl : firstMinBy f l with
    | none =>
      have hnil : l = [] := (firstMinBy_eq_none f l).mp hl
      subst hnil
      simp only [firstMinBy, hl] at h
      rcases Option.some.inj h with rfl
      rcases List.mem_singleton.mp hb with rfl
      exact le_refl _
    | some d =>
      simp only [firstMinBy, hl] at h
      by_cases hc : f c ≤ f d
      · rw [if_pos hc] at h
        rcases Option.some.inj h with rfl
        rcases List.mem_cons.mp hb with rfl | hb
        · exact le_refl _
        · exact le_trans hc (ih d hl b hb)
      · rw [if_neg hc] at h
        rcases Option.some.inj h with rfl
        rcases List.mem_cons.mp hb with rfl | hb
        · exact le_of_lt (Nat.lt_of_not_le hc)
        · exact ih d hl b hb

theorem mem_applyAllowList {α : Type} (cat : α → Option String)
    (codes : Option (List String)) (rows : List α) (out : α)
    (h : out ∈ applyAllowList cat codes rows) : out ∈ rows := by
  cases codes with
  | none => exact h
  | some cs =>
    cases cs with
    | nil => exact h
    | cons c cs => exact (List.mem_filter.mp h).1

theorem applyAllowList_cat {α : Type} (cat : α → Option String)
    (c : String) (cs : List String) (rows : List α) (out : α)
    (h : out ∈ applyAllowList cat (some (c :: cs)) rows) :
    ∃ x, cat out = some x ∧ x ∈ c :: cs := by
  have hp := (List.mem_filter.mp h).2
  cases hcat : cat out with
  | none => rw [hcat] at hp; simp at hp
  | some x =>
    rw [hcat] at hp
    simp only at hp
    exact ⟨x, rfl, by simpa using hp⟩

theorem mem_mimic_selected (merged : List (MimicStay × MimicDiagRow × String))
    (t : MimicStay × MimicDiagRow × String) (h : t ∈ mimic_selected merged) :
    t ∈ merged := by
  simp only [mimic_selected, List.mem_filterMap] at h
  obtain ⟨sid, _, hf⟩ := h
  exact (List.mem_filter.mp (firstMinBy_mem _ _ _ hf)).1

theorem mimic_selected_min (merged : List (MimicStay × MimicDiagRow × String))
    (t t' : MimicStay × MimicDiagRow × String) (h : t ∈ mimic_selected merged)
    (h' : t' ∈ merged) (hsid : t'.1.stay_id = t.1.stay_id) :
    t.2.1.seq_num ≤ t'.2.1.seq_num := by
  simp only [mimic_selected, List.mem_filterMap] at h
  obtain ⟨sid, _, hf⟩ := h
  have hts : (t.1.stay_id == sid) = true :=
    (List.mem_filter.mp (firstMinBy_mem _ _ _ hf)).2
  have ht' : t' ∈ merged.filter (fun u => u.1.stay_id == sid) :=
    List.mem_filter.mpr ⟨h', by
      rw [hsid]
      exact hts⟩
  exact firstMinBy_le _ _ _ hf t' ht'

theorem mem_mimic_merged (stays : List MimicStay)
    (resolved : List (MimicDiagRow × String))
    (t : MimicStay × MimicDiagRow × String) (h : t ∈ mimic_merged stays resolved) :
    t.1 ∈ stays ∧ t.2 ∈ resolved ∧ t.2.1.hadm_id = t.1.hadm_id := by
  simp only [mimic_merged, List.mem_flatMap, List.mem_map] at h
  obtain ⟨s, hs, rc, hrc, rfl⟩ := h
  have := (List.mem_filter.mp hrc).2
  exact ⟨hs, (List.mem_filter.mp hrc).1, by simpa using this⟩

theorem mem_mimic_with_css (cssMap : List CssMapRow)
    (selected : List (MimicStay × MimicDiagRow × String)) (out : MimicStayDiag)
    (h : out ∈ mimic_with_css cssMap selected) :
    ∃ t ∈ selected, out.hadm_id = t.1.hadm_id ∧ out.stay_id = t.1.stay_id ∧
      (out.cat1, out.desc1) ∈ merge_css cssMap t.2.2 := by
  simp only [mimic_with_css, List.mem_flatMap, List.mem_map] at h
  obtain ⟨t, ht, cd, hcd, rfl⟩ := h
  exact ⟨t, ht, rfl, rfl, hcd⟩

/-- Claim C3, counterexample: the claim states that an entity whose
code misses the intermediate→category stage is removed from the result
entirely even when no allow-list is given.  In the code the category
merge is a *left* merge and no row is dropped afterwards unless an
allow-list filter runs: with an empty CCSR table and
`diagnosis_codes=None`, the stay below survives with a null category
instead of being removed. -/
theorem C3_counterexample :
    mimic_add_diagnosis [] [] [⟨100, 1000⟩] [⟨100, "A001", 1, 10⟩] none =
      [⟨100, 1000, none, none⟩] := by decide

/-- Claim C3, amended: a legacy→intermediate (stage-1) miss removes the
entity regardless of the allow-list — every returned row's `hadm_id`
has at least one stage-1-resolved diagnosis; an intermediate→category
(stage-2) miss removes the entity only when a non-empty allow-list is
given, in which case every returned row carries a non-null category
that is in the list (with no allow-list, a stage-2-miss entity is kept
with a null category, as the counterexample shows). -/
theorem C3_amended :
    (∀ (mapping : List IcdMapRow) (cssMap : List CssMapRow)
        (stays : List MimicStay) (diag : List MimicDiagRow)
        (codes : Option (List String)) (out : MimicStayDiag),
        out ∈ mimic_add_diagnosis mapping cssMap stays diag codes →
        ∃ rc ∈ mimic_resolved mapping diag, rc.1.hadm_id = out.hadm_id) ∧
    (∀ (mapping : List IcdMapRow) (cssMap : List CssMapRow)
        (stays : List MimicStay) (diag : List MimicDiagRow)
        (c : String) (cs : List String) (out : MimicStayDiag),
        out ∈ mimic_add_diagnosis mapping cssMap stays diag (some (c :: cs)) →
        ∃ cat, out.cat1 = some cat ∧ cat ∈ c :: cs) := by
  constructor
  · intro mapping cssMap stays diag codes out hout
    have h1 := mem_applyAllowList _ _ _ _ hout
    obtain ⟨t, ht, hhadm, _, _⟩ := mem_mimic_with_css _ _ _ h1
    have h2 := mem_mimic_selected _ _ ht
    obtain ⟨_, hres, hh⟩ := mem_mimic_merged _ _ _ h2
    exact ⟨t.2, hres, by rw [hh, hhadm]⟩
  · intro mapping cssMap stays diag c cs out hout
    exact applyAllowList_cat _ _ _ _ _ hout

/-- Witness for `C3_amended`: both parts applied at concrete runs. -/
theorem C3_amended_witness :
    (∃ rc ∈ mimic_resolved [] [⟨20, "A0", 1, 10⟩], rc.1.hadm_id = 20) ∧
    (∃ cat, (⟨20, 2000, some "C1", some "d"⟩ : MimicStayDiag).cat1 = some cat ∧
      cat ∈ ["C1"]) :=
  ⟨C3_amended.1 [] [] [⟨20, 2000⟩] [⟨20, "A0", 1, 10⟩] none
      ⟨20, 2000, none, none⟩ (by decide),
    C3_amended.2 [] [⟨"A0", "C1", "d"⟩] [⟨20, 2000⟩] [⟨20, "A0", 1, 10⟩]
      "C1" [] ⟨20, 2000, some "C1", some "d"⟩ (by decide)⟩

/-- Claim C4, counterexample: the claim states that the diagnosis
assignment first filters records to `offset ≤ cutoff` in *both*
adapters.  The MIMIC adapter reads only `hadm_id, icd_code, seq_num,
icd_version` (`usecols`) and has no cutoff parameter: a raw record
whose time column is `200` (past the claimed cutoff `180`) still fully
determines the output, so pre-filtering the records to
`row_time ≤ 180` — which the claim says the step itself does — changes
the result. -/
theorem C4_counterexample :
    mimic_add_diagnosis [] [⟨"A001", "DIG001", "d"⟩] [⟨100, 1000⟩]
        (mimic_read_diagnoses [⟨100, "A001", 1, 10, 200⟩]) none ≠
      mimic_add_diagnosis [] [⟨"A001", "DIG001", "d"⟩] [⟨100, 1000⟩]
        (mimic_read_diagnoses
          ([⟨100, "A001", 1, 10, 200⟩].filter
            (fun r => decide (r.row_time ≤ 180)))) none := by decide

/-- Claim C4, amended: the eICU adapter filters diagnosis records to
priority `"Primary"` and `offset ≤ cutoff * 60` (inclusive); the MIMIC
adapter applies no offset filter at all — its reader discards any
time-like column, so the records it consumes are invariant under any
change of that column — and applies no categorical filter, resolving
priority by per-stay minimum `seq_num`. -/
theorem C4_amended :
    (∀ (cutoff_h : ℚ) (diag : List EicuDiagRow) (r : EicuDiagRow),
        r ∈ eicu_filter_diag cutoff_h diag ↔
          r ∈ diag ∧ r.diagnosispriority = "Primary" ∧
            r.diagnosisoffset ≤ cutoff_h * 60) ∧
    (∀ (raw : List MimicRawDiagRow) (f : MimicRawDiagRow → ℚ),
        mimic_read_diagnoses (raw.map (fun r => { r with row_time := f r })) =
          mimic_read_diagnoses raw) ∧
    (∀ (merged : List (MimicStay × MimicDiagRow × String))
        (t : MimicStay × MimicDiagRow × String),
        t ∈ mimic_selected merged → t ∈ merged) ∧
    (∀ (merged : List (MimicStay × MimicDiagRow × String))
        (t t' : MimicStay × MimicDiagRow × String),
        t ∈ mimic_selected merged → t' ∈ merged →
        t'.1.stay_id = t.1.stay_id → t.2.1.seq_num ≤ t'.2.1.seq_num) := by
  refine ⟨?_, ?_, ?_, ?_⟩
  · intro cutoff_h diag r
    simp only [eicu_filter_diag, List.mem_filter, Bool.and_eq_true,
      decide_eq_true_eq, and_assoc]
  · intro raw f
    simp only [mimic_read_diagnoses, List.map_map]
    rfl
  · exact fun merged t h => mem_mimic_selected merged t h
  · exact fun merged t t' h h' hsid => mimic_selected_min merged t t' h h' hsid

/-- Witness for `C4_amended`: all four parts applied at concrete
inputs. -/
theorem C4_amended_witness :
    ((⟨1, some "996", 30, "Primary"⟩ : EicuDiagRow) ∈
        eicu_filter_diag 3 [⟨1, some "996", 30, "Primary"⟩] ↔
      (⟨1, some "996", 30, "Primary"⟩ : EicuDiagRow) ∈
          [(⟨1, some "996", 30, "Primary"⟩ : EicuDiagRow)] ∧
        (⟨1, some "996", 30, "Primary"⟩ : EicuDiagRow).diagnosispriority =
          "Primary" ∧
        (⟨1, some "996", 30, "Primary"⟩ : EicuDiagRow).diagnosisoffset ≤
          3 * 60) ∧
    (mimic_read_diagnoses
        (([⟨20, "A0", 1, 10, 5⟩] : List MimicRawDiagRow).map
          (fun r => { r with row_time := 99 })) =
      mimic_read_diagnoses [⟨20, "A0", 1, 10, 5⟩]) ∧
    ((⟨⟨20, 2000⟩, ⟨20, "B0", 1, 10⟩, "B0"⟩ :
        MimicStay × MimicDiagRow × String) ∈
      mimic_merged [⟨20, 2000⟩]
        (mimic_resolved [] [⟨20, "A0", 2, 10⟩, ⟨20, "B0", 1, 10⟩])) ∧
    ((⟨⟨20, 2000⟩, ⟨20, "B0", 1, 10⟩, "B0"⟩ :
          MimicStay × MimicDiagRow × String).2.1.seq_num ≤
      (⟨⟨20, 2000⟩, ⟨20, "A0", 2, 10⟩, "A0"⟩ :
          MimicStay × MimicDiagRow × String).2.1.seq_num) :=
  ⟨C4_amended.1 3 [⟨1, some "996", 30, "Primary"⟩] ⟨1, some "996", 30, "Primary"⟩,
    C4_amended.2.1 [⟨20, "A0", 1, 10, 5⟩] (fun _ => 99),
    C4_amended.2.2.1
      (mimic_merged [⟨20, 2000⟩]
        (mimic_resolved [] [⟨20, "A0", 2, 10⟩, ⟨20, "B0", 1, 10⟩]))
      ⟨⟨20, 2000⟩, ⟨20, "B0", 1, 10⟩, "B0"⟩ (by decide),
    C4_amended.2.2.2
      (mimic_merged [⟨20, 2000⟩]
        (mimic_resolved [] [⟨20, "A0", 2, 10⟩, ⟨20, "B0", 1, 10⟩]))
      ⟨⟨20, 2000⟩, ⟨20, "B0", 1, 10⟩, "B0"⟩
      ⟨⟨20, 2000⟩, ⟨20, "A0", 2, 10⟩, "A0"⟩ (by decide) (by decide) rfl⟩

/-! ### Support lemmas for cohort-key uniqueness -/

theorem nodup_filterMap_self {α : Type} [DecidableEq α] (h : α → Option α)
    (hid : ∀ a x, h a = some x → x = a) :
    ∀ (l : List α), l.Nodup → (l.filterMap h).Nodup := by
  intro l
  induction l with
  | nil => intro _; simp
  | cons a l ih =>
    intro hn
    rw [List.filterMap_cons]
    rcases List.nodup_cons.mp hn with ⟨hna, hnl⟩
    cases hha : h a with
    | none => exact ih hnl
    | some x =>
      rcases hid a x hha with rfl
      refine List.nodup_cons.mpr ⟨?_, ih hnl⟩
      intro hc
      obtain ⟨b, hb, hhb⟩ := List.mem_filterMap.mp hc
      rcases hid b _ hhb with rfl
      exact hna hb

theorem css_matches_short (cssMap : List CssMapRow) (code : String)
    (hkeys : (cssMap.map (fun m => m.icd10)).Nodup) :
    css_matches cssMap code = [] ∨ ∃ m, css_matches cssMap code = [m] := by
  induction cssMap with
  | nil => exact Or.inl rfl
  | cons m ms ih =>
    rw [List.map_cons, List.nodup_cons] at hkeys
    obtain ⟨hm, hms⟩ := hkeys
    by_cases hc : m.icd10 = code
    · right
      refine ⟨m, ?_⟩
      have hrest : css_matches ms code = [] := by
        rcases hmt : css_matches ms code with _ | ⟨m', ms'⟩
        · rfl
        · exfalso
          have hm' : m' ∈ css_matches ms code := by rw [hmt]; exact List.mem_cons_self _ _
          have := List.mem_filter.mp hm'
          apply hm
          rw [List.mem_map]
          exact ⟨m', this.1, by
            have := of_decide_eq_true this.2
            rw [this, hc]⟩
      rw [css_matches, List.filter_cons, if_pos (by simpa using hc)]
      rw [css_matches] at hrest
      rw [hrest]
    · rw [css_matches, List.filter_cons, if_neg (by simpa using hc)]
      exact ih hms

theorem merge_css_singleton (cssMap : List CssMapRow) (code : String)
    (hkeys : (cssMap.map (fun m => m.icd10)).Nodup) :
    ∃ cd, merge_css cssMap code = [cd] := by
  rcases css_matches_short cssMap code hkeys with h | ⟨m, h⟩
  · exact ⟨(none, none), by rw [merge_css, h]⟩
  · exact ⟨(blankToNone m.cat1, blankToNone m.desc1), by rw [merge_css, h]; rfl⟩

theorem map_stay_mimic_with_css (cssMap : List CssMapRow)
    (hkeys : (cssMap.map (fun m => m.icd10)).Nodup) :
    ∀ (selected : List (MimicStay × MimicDiagRow × String)),
      (mimic_with_css cssMap selected).map (fun r => r.stay_id) =
        selected.map (fun t => t.1.stay_id) := by
  intro selected
  induction selected with
  | nil => rfl
  | cons t l ih =>
    obtain ⟨cd, hcd⟩ := merge_css_singleton cssMap t.2.2 hkeys
    have hsplit : mimic_with_css cssMap (t :: l) =
        ((merge_css cssMap t.2.2).map (fun cd =>
          ({ hadm_id := t.1.hadm_id, stay_id := t.1.stay_id,
             cat1 := cd.1, desc1 := cd.2 } : MimicStayDiag))) ++
          mimic_with_css cssMap l := by
      simp [mimic_with_css]
    rw [hsplit, hcd]
    simp only [List.map_cons, List.map_nil, List.map_append,
      List.singleton_append, List.map_cons]
    rw [ih]

theorem nodup_selected_ids (merged : List (MimicStay × MimicDiagRow × String)) :
    ((mimic_selected merged).map (fun t => t.1.stay_id)).Nodup := by
  rw [mimic_selected, List.map_filterMap]
  apply nodup_filterMap_self
  · intro sid x h
    cases hf : firstMinBy (fun t => t.2.1.seq_num)
        (merged.filter (fun u => u.1.stay_id == sid)) with
    | none => rw [hf] at h; exact Option.noConfusion h
    | some t =>
      rw [hf] at h
      have ht := (List.mem_filter.mp (firstMinBy_mem _ _ _ hf)).2
      simp only [Option.map_some'] at h
      rcases Option.some.inj h with rfl
      exact eq_of_beq ht
  · exact nodup_drop_duplicates _

theorem applyAllowList_sublist {α : Type} (cat : α → Option String)
    (codes : Option (List String)) (rows : List α) :
    (applyAllowList cat codes rows).Sublist rows := by
  cases codes with
  | none => exact List.Sublist.refl rows
  | some cs =>
    cases cs with
    | nil => exact List.Sublist.refl rows
    | cons c cs => exact List.filter_sublist rows

/-- Claim C5: on a cohort with unique entity keys (and the CCSR table
keyed uniquely by intermediate code, as the data model requires), the
MIMIC diagnosis assignment never returns two rows with the same
`stay_id`. -/
theorem C5_unique_entity_keys (mapping : List IcdMapRow)
    (cssMap : List CssMapRow) (stays : List MimicStay)
    (diag : List MimicDiagRow) (codes : Option (List String))
    (hstays : (stays.map (fun s => s.stay_id)).Nodup)
    (hkeys : (cssMap.map (fun m => m.icd10)).Nodup) :
    ((mimic_add_diagnosis mapping cssMap stays diag codes).map
      (fun r => r.stay_id)).Nodup := by
  have h1 := nodup_selected_ids (mimic_merged stays (mimic_resolved mapping diag))
  have h2 : ((mimic_with_css cssMap
      (mimic_selected (mimic_merged stays (mimic_resolved mapping diag)))).map
        (fun r => r.stay_id)).Nodup := by
    rw [map_stay_mimic_with_css cssMap hkeys]
    exact h1
  have h3 := applyAllowList_sublist (fun r : MimicStayDiag => r.cat1) codes
    (mimic_with_css cssMap
      (mimic_selected (mimic_merged stays (mimic_resolved mapping diag))))
  exact h2.sublist (h3.map (fun r => r.stay_id))

/-- Witness for `C5_unique_entity_keys` on a concrete run. -/
theorem C5_unique_entity_keys_witness :
    ((mimic_add_diagnosis [] [⟨"A0", "C1", "d"⟩] [⟨20, 2000⟩, ⟨21, 2001⟩]
        [⟨20, "A0", 1, 10⟩] none).map (fun r => r.stay_id)).Nodup :=
  C5_unique_entity_keys [] [⟨"A0", "C1", "d"⟩] [⟨20, 2000⟩, ⟨21, 2001⟩]
    [⟨20, "A0", 1, 10⟩] none (by decide) (by decide)

theorem head_filter_eq_find {α : Type} (p : α → Bool) :
    ∀ (l : List α), (l.filter p).head? = l.find? p := by
  intro l
  induction l with
  | nil => rfl
  | cons a l ih =>
    rw [List.filter_cons, List.find?_cons]
    by_cases h : p a
    · simp [h]
    · simp [h, ih]

/-- Claim C6: `icd_9to10` truncates the legacy code to its first 3
characters and performs an exact first-match lookup: it returns the
`icd10cm` of the first table row (in table order) whose
`diagnosis_code` equals the truncation, and `none` (NaN, never a
default or empty code) exactly when no row matches; concretely, legacy
code `"9999"` (truncation `"999"`) with no matching row resolves to
NaN and its owning entity is excluded from the final output of both
adapters. -/
theorem C6_resolve_legacy :
    (∀ (mapping : List IcdMapRow) (icd : String),
        icd_9to10 mapping icd =
          (mapping.find? (fun r =>
            decide (r.diagnosis_code = strTake 3 icd))).map
            (fun r => r.icd10cm)) ∧
    (∀ (mapping : List IcdMapRow) (icd : String),
        icd_9to10 mapping icd = none ↔
          ∀ r ∈ mapping, r.diagnosis_code ≠ strTake 3 icd) ∧
    mimic_add_diagnosis [⟨"996", "T8384XA"⟩] [⟨"T8384XA", "INF001", "infections"⟩]
        [⟨101, 1001⟩] [⟨101, "9999", 1, 9⟩] none = [] ∧
    eicu_add_diagnosis [⟨"996", "T8384XA"⟩] [⟨"T8384XA", "INF001", "infections"⟩]
        [⟨11⟩] [⟨11, some "9999", 10, "Primary"⟩] none 3 = [] := by
  have hfind : ∀ (mapping : List IcdMapRow) (icd : String),
      icd_9to10 mapping icd =
        (mapping.find? (fun r =>
          decide (r.diagnosis_code = strTake 3 icd))).map (fun r => r.icd10cm) := by
    intro mapping icd
    rw [icd_9to10, List.head?_map, head_filter_eq_find]
  refine ⟨hfind, ?_, by decide, ?_⟩
  · intro mapping icd
    rw [hfind]
    constructor
    · intro h r hr
      rw [Option.map_eq_none'] at h
      have := List.find?_eq_none.mp h r hr
      simpa using this
    · intro h
      rw [Option.map_eq_none', List.find?_eq_none]
      intro r hr
      simpa using h r hr
  · norm_num [eicu_add_diagnosis, eicu_filter_diag, eicu_select_last, firstMaxBy,
      drop_duplicates, dropDupAux, icd_9to10, strTake, firstToken, strTrim,
      stripChars, merge_css, css_matches, applyAllowList]
    decide

/-- Claim C7, counterexample: the claim states that a whitespace-only
category string is normalized to NotFound exactly like a missing key.
The code's `replace("", np.nan)` replaces only the *exactly empty*
string: a CCSR row whose category is `"' '"` in the raw file (a single
space after quote-stripping) is kept as the real category `" "`,
unlike an absent mapping row which yields a null category. -/
theorem C7_counterexample :
    map_icd_to_css (read_css_mapping [⟨"'A000'", "' '", "''"⟩]) [⟨1, "A000"⟩] =
        [⟨1, some " ", none⟩] ∧
      map_icd_to_css [] [⟨1, "A000"⟩] = [⟨1, none, none⟩] := by
  constructor
  · decide
  · decide

/-- Claim C7, amended: a mapped category that is *exactly* the empty
string is normalized to NaN — the same null category an absent mapping
row produces; whitespace-only but non-empty categories are not
normalized (see the counterexample). -/
theorem C7_amended :
    ∀ (cssMap : List CssMapRow) (code : String)
      (cd : Option String × Option String),
      cd ∈ merge_css cssMap code →
      (∀ m ∈ cssMap, m.icd10 = code → m.cat1 = "") →
      cd.1 = none := by
  intro cssMap code cd hcd hall
  cases hmt : css_matches cssMap code with
  | nil =>
    simp only [merge_css, hmt] at hcd
    rcases List.mem_singleton.mp hcd with rfl
    rfl
  | cons m ms =>
    simp only [merge_css, hmt] at hcd
    obtain ⟨m', hm', rfl⟩ := List.mem_map.mp hcd
    have hmem : m' ∈ css_matches cssMap code := hmt ▸ hm'
    have h2 := List.mem_filter.mp hmem
    have hblank : m'.cat1 = "" := hall m' h2.1 (of_decide_eq_true h2.2)
    simp [blankToNone, hblank]

/-- Witness for `C7_amended` at a one-row table with an empty
category. -/
theorem C7_amended_witness :
    ((none, some "x") : Option String × Option String).1 = none :=
  C7_amended [⟨"B0", "", "x"⟩] "B0" (none, some "x") (by decide) (by decide)

theorem length_insertSorted (a : ℚ) :
    ∀ (l : List ℚ), (insertSorted a l).length = l.length + 1 := by
  intro l
  induction l with
  | nil => rfl
  | cons b l ih =>
    by_cases h : a ≤ b
    · simp [insertSorted, if_pos h]
    · simp [insertSorted, if_neg h, ih]

theorem length_sortAsc : ∀ (l : List ℚ), (sortAsc l).length = l.length := by
  intro l
  induction l with
  | nil => rfl
  | cons a l ih => simp [sortAsc, length_insertSorted, ih]

theorem listMean_isSome {l : List ℚ} (h : l ≠ []) :
    ∃ me, listMean l = some me := by
  refine ⟨l.sum / l.length, ?_⟩
  rw [listMean, if_neg (by simpa using h)]

theorem listMedian_isSome {l : List ℚ} (h : l ≠ []) :
    ∃ md, listMedian l = some md := by
  have hlen : (sortAsc l).length = l.length := length_sortAsc l
  have h0 : (sortAsc l).length ≠ 0 := by
    rw [hlen]
    simpa using (List.length_pos.mpr h).ne'
  rw [listMedian, if_neg h0]
  by_cases hodd : (sortAsc l).length % 2 = 1
  · rw [if_pos hodd]
    cases hg : (sortAsc l).get? ((sortAsc l).length / 2) with
    | none =>
      exfalso
      have hle := List.get?_eq_none.mp hg
      have := Nat.div_lt_self (Nat.pos_of_ne_zero h0) one_lt_two
      omega
    | some a => exact ⟨a, rfl⟩
  · rw [if_neg hodd]
    have hge : 2 ≤ (sortAsc l).length := by omega
    cases hg1 : (sortAsc l).get? ((sortAsc l).length / 2 - 1) with
    | none =>
      exfalso
      have hle := List.get?_eq_none.mp hg1
      have : (sortAsc l).length / 2 ≤ (sortAsc l).length := Nat.div_le_self _ _
      omega
    | some a =>
      cases hg2 : (sortAsc l).get? ((sortAsc l).length / 2) with
      | none =>
        exfalso
        have hle := List.get?_eq_none.mp hg2
        have := Nat.div_lt_self (Nat.pos_of_ne_zero h0) one_lt_two
        omega
      | some b => exact ⟨(a + b) / 2, rfl⟩

/-- Claim C8: the aggregator computes, per (entity, variable) group,
`last` = value of the final (maximum-offset) row when the group is
sorted ascending by offset, together with max, min, mean, median of
the group's values; concretely Scenario B's three heart-rate events
produce `last=80, max=90, min=70, mean=80, median=80`. -/
theorem C8_aggregation :
    (create_chart_features
        [⟨1, "hr", 5, 70⟩, ⟨1, "hr", 60, 90⟩, ⟨1, "hr", 120, 80⟩] 1 "hr" =
      ⟨some 80, some 90, some 70, some 80, some 80⟩) ∧
    (∀ (rows : List ChartSortedRow) (s : ℕ) (v : String),
        (groupRows rows s v).Chain' (fun p q => p.t ≤ q.t) →
        groupRows rows s v ≠ [] →
        ∃ r ∈ groupRows rows s v,
          (∀ r' ∈ groupRows rows s v, r'.t ≤ r.t) ∧
          (create_chart_features rows s v).last = some r.val) := by
  constructor
  · norm_num [create_chart_features, groupValues, groupRows, listLast, listMax,
      listMin, listMean, listMedian, sortAsc, insertSorted, FeatureStats.mk.injEq]
  · intro rows s v hch hne
    cases hg : (groupRows rows s v).getLast? with
    | none => exact absurd (List.getLast?_eq_none_iff.mp hg) hne
    | some r =>
      obtain ⟨hrmem, hrmax⟩ :=
        getLast_max_of_chain (fun p => p.t) (groupRows rows s v) hch r hg
      refine ⟨r, hrmem, hrmax, ?_⟩
      show listLast (groupValues rows s v) = some r.val
      rw [listLast, groupValues, List.getLast?_map, hg, Option.map_some']

/-- Witness for `C8_aggregation` at the (sorted, non-empty) Scenario B
group. -/
theorem C8_aggregation_witness :
    ∃ r ∈ groupRows
        [⟨1, "hr", 5, 70⟩, ⟨1, "hr", 60, 90⟩, ⟨1, "hr", 120, 80⟩] 1 "hr",
      (∀ r' ∈ groupRows
          [⟨1, "hr", 5, 70⟩, ⟨1, "hr", 60, 90⟩, ⟨1, "hr", 120, 80⟩] 1 "hr",
        r'.t ≤ r.t) ∧
      (create_chart_features
        [⟨1, "hr", 5, 70⟩, ⟨1, "hr", 60, 90⟩, ⟨1, "hr", 120, 80⟩] 1 "hr").last =
          some r.val :=
  C8_aggregation.2
    [⟨1, "hr", 5, 70⟩, ⟨1, "hr", 60, 90⟩, ⟨1, "hr", 120, 80⟩] 1 "hr"
    (by norm_num [groupRows, List.chain'_cons]) (by decide)

/-- Claim C9: for every non-empty (entity, variable) group the five
statistics satisfy `min ≤ median ≤ max` and `min ≤ mean ≤ max`. -/
theorem C9_stat_ordering :
    ∀ (rows : List ChartSortedRow) (s : ℕ) (v : String),
      groupValues rows s v ≠ [] →
      ∃ mn md mx me,
        (create_chart_features rows s v).min = some mn ∧
        (create_chart_features rows s v).median = some md ∧
        (create_chart_features rows s v).max = some mx ∧
        (create_chart_features rows s v).mean = some me ∧
        mn ≤ md ∧ md ≤ mx ∧ mn ≤ me ∧ me ≤ mx := by
  intro rows s v h
  obtain ⟨mn, hmn⟩ := listMin_isSome h
  obtain ⟨mx, hmx⟩ := listMax_isSome h
  obtain ⟨me, hme⟩ := listMean_isSome h
  obtain ⟨md, hmd⟩ := listMedian_isSome h
  obtain ⟨h1, h2⟩ := listMedian_bounds hmn hmx hmd
  obtain ⟨h3, h4⟩ := listMean_bounds hmn hmx hme
  exact ⟨mn, md, mx, me, hmn, hmd, hmx, hme, h1, h2, h3, h4⟩

/-- Witness for `C9_stat_ordering` at a two-event group. -/
theorem C9_stat_ordering_witness :
    ∃ mn md mx me,
      (create_chart_features [⟨1, "hr", 5, 70⟩, ⟨1, "hr", 60, 90⟩] 1 "hr").min =
          some mn ∧
        (create_chart_features
            [⟨1, "hr", 5, 70⟩, ⟨1, "hr", 60, 90⟩] 1 "hr").median = some md ∧
        (create_chart_features
            [⟨1, "hr", 5, 70⟩, ⟨1, "hr", 60, 90⟩] 1 "hr").max = some mx ∧
        (create_chart_features
            [⟨1, "hr", 5, 70⟩, ⟨1, "hr", 60, 90⟩] 1 "hr").mean = some me ∧
        mn ≤ md ∧ md ≤ mx ∧ mn ≤ me ∧ me ≤ mx :=
  C9_stat_ordering [⟨1, "hr", 5, 70⟩, ⟨1, "hr", 60, 90⟩] 1 "hr" (by decide)

/-- Claim C10: in the MIMIC `_standardize_icd` only rows with
`icd_version = 9` are resolved through the ICD-9→ICD-10 table; a row
with any other version keeps its original `icd_code` (never NaN at
this stage), whereas the eICU `_standardize_icd` resolves every code
through the table regardless of version. -/
theorem C10_version_gate :
    (∀ (mapping : List IcdMapRow) (df : List MimicDiagRow)
        (r : MimicDiagRow) (o : Option String),
        (r, o) ∈ mimic_standardize_icd mapping df ↔
          r ∈ df ∧
            o = (if r.icd_version = 9 then icd_9to10 mapping r.icd_code
              else some r.icd_code)) ∧
    (∀ (mapping : List IcdMapRow) (df : List MimicDiagRow) (r : MimicDiagRow),
        r ∈ df → r.icd_version ≠ 9 →
        (r, some r.icd_code) ∈ mimic_standardize_icd mapping df) ∧
    (∀ (mapping : List IcdMapRow) (codes : List String) (o : Option String),
        o ∈ eicu_standardize_icd mapping codes ↔
          ∃ c ∈ codes, icd_9to10 mapping c = o) := by
  have hmem : ∀ (mapping : List IcdMapRow) (df : List MimicDiagRow)
      (r : MimicDiagRow) (o : Option String),
      (r, o) ∈ mimic_standardize_icd mapping df ↔
        r ∈ df ∧
          o = (if r.icd_version = 9 then icd_9to10 mapping r.icd_code
            else some r.icd_code) := by
    intro mapping df r o
    simp only [mimic_standardize_icd, List.mem_map, Prod.mk.injEq]
    constructor
    · rintro ⟨a, ha, rfl, rfl⟩
      exact ⟨ha, rfl⟩
    · rintro ⟨hr, rfl⟩
      exact ⟨r, hr, rfl, rfl⟩
  refine ⟨hmem, ?_, ?_⟩
  · intro mapping df r hr h9
    exact (hmem mapping df r _).mpr ⟨hr, by rw [if_neg h9]⟩
  · intro mapping codes o
    simp only [eicu_standardize_icd, List.mem_map]

/-- Witness for `C10_version_gate`: all parts at concrete rows. -/
theorem C10_version_gate_witness :
    ((⟨30, "A1", 1, 10⟩, some "A1") ∈
        mimic_standardize_icd [] [⟨30, "A1", 1, 10⟩] ↔
      (⟨30, "A1", 1, 10⟩ : MimicDiagRow) ∈ [(⟨30, "A1", 1, 10⟩ : MimicDiagRow)] ∧
        (some "A1" : Option String) =
          (if (⟨30, "A1", 1, 10⟩ : MimicDiagRow).icd_version = 9 then
            icd_9to10 [] (⟨30, "A1", 1, 10⟩ : MimicDiagRow).icd_code
          else some (⟨30, "A1", 1, 10⟩ : MimicDiagRow).icd_code)) ∧
    ((⟨30, "A1", 1, 10⟩, some "A1") ∈
      mimic_standardize_icd [] [⟨30, "A1", 1, 10⟩]) :=
  ⟨C10_version_gate.1 [] [⟨30, "A1", 1, 10⟩] ⟨30, "A1", 1, 10⟩ (some "A1"),
    C10_version_gate.2.1 [] [⟨30, "A1", 1, 10⟩] ⟨30, "A1", 1, 10⟩
      (by decide) (by decide)⟩
